import Mathlib

/-
  Shallow embedding of the libopenapi-validator contract-validation engine.

  The repository source provides the `parameters` package (the
  `ParameterValidator` interface, `SetPathItem`, `NewParameterValidator` and
  the `paramValidator` struct); the validation engine itself (request /
  response validation, parameter codec, schema adapter) is described by the
  specification and exercised by the repository's tests.  Definitions below
  that embed code absent from the source tree are marked
  "Modelled from the spec:".
-/

namespace LibOpenAPIValidator

/-- JSON instance values, as decoded from a request or response body.
The engine validates these against the contract's schemas. -/
inductive Json where
  | jnull
  | jbool (b : Bool)
  | jint (n : Int)
  | jstr (s : String)
  | jarr (elems : List Json)
  | jobj (fields : List (String × Json))

/-- The JSON type name of a value, as used in schema-violation reasons
such as "expected integer, but got boolean". -/
def Json.typeName : Json → String
  | .jnull => "null"
  | .jbool _ => "boolean"
  | .jint _ => "integer"
  | .jstr _ => "string"
  | .jarr _ => "array"
  | .jobj _ => "object"

/-- Primitive schema types of the OpenAPI contract fragments the
repository's tests declare. -/
inductive PrimType where
  | pString
  | pInteger
  | pBoolean
deriving DecidableEq

/-- The declared name of a primitive schema type. -/
def PrimType.typeName : PrimType → String
  | .pString => "string"
  | .pInteger => "integer"
  | .pBoolean => "boolean"

/-- Whether a JSON value conforms to a primitive schema type. -/
def PrimType.check : PrimType → Json → Bool
  | .pString, .jstr _ => true
  | .pInteger, .jint _ => true
  | .pBoolean, .jbool _ => true
  | _, _ => false

/-- A single localized mismatch between an instance value and a schema
keyword, carrying a human-readable reason. -/
structure SchemaViolation where
  reason : String
deriving DecidableEq

/-- Modelled from the spec: the Schema Adapter's violation for a
primitive-type mismatch, e.g. "expected integer, but got boolean". -/
def primViolations (t : PrimType) (j : Json) : List SchemaViolation :=
  if t.check j then [] else [⟨"expected " ++ t.typeName ++ ", but got " ++ j.typeName⟩]

/-- Modelled from the spec: the reason for required properties absent from
an object instance, e.g. "missing properties: 'photoUrls'". -/
def missingPropsReason (names : List String) : String :=
  "missing properties: " ++ String.intercalate ", " (names.map (fun n => "'" ++ n ++ "'"))

/-- Schema of one declared property of an object body: a primitive, an
array of primitives, or a nested object of primitives.  Covers the schema
shapes the repository's contracts declare. -/
inductive FieldSchema where
  | prim (t : PrimType)
  | arrayOf (t : PrimType)
  | objectOf (props : List (String × PrimType)) (required : List String)
deriving DecidableEq

/-- An object schema: declared properties and the required-property list. -/
structure ObjectSchema where
  props : List (String × FieldSchema)
  required : List String
deriving DecidableEq

/-- Modelled from the spec: violations of the required-property keyword for
one object instance; empty when nothing required is missing. -/
def requiredViolations (required : List String) (fields : List (String × Json)) :
    List SchemaViolation :=
  let missing := required.filter (fun r => (fields.lookup r).isNone)
  if missing.isEmpty then [] else [⟨missingPropsReason missing⟩]

/-- Modelled from the spec: the Schema Adapter's check of one declared
property against the instance value found for it (absent yields nothing:
absence is the required keyword's business, handled separately). -/
def fieldViolations : FieldSchema → Option Json → List SchemaViolation
  | _, none => []
  | .prim t, some v => primViolations t v
  | .arrayOf t, some (.jarr xs) => xs.flatMap (primViolations t)
  | .arrayOf _, some v => [⟨"expected array, but got " ++ v.typeName⟩]
  | .objectOf props required, some (.jobj fields) =>
      requiredViolations required fields ++
        props.flatMap (fun p => match fields.lookup p.1 with
          | some v => primViolations p.2 v
          | none => [])
  | .objectOf _ _, some v => [⟨"expected object, but got " ++ v.typeName⟩]

/-- Modelled from the spec: validate an instance against an object schema,
collecting every violation — required properties first, then every declared
property in declaration order; validation never stops at the first
violation. -/
def validateBody (schema : ObjectSchema) (j : Json) : List SchemaViolation :=
  match j with
  | .jobj fields =>
      requiredViolations schema.required fields ++
        schema.props.flatMap (fun p => fieldViolations p.2 (fields.lookup p.1))
  | other => [⟨"expected object, but got " ++ other.typeName⟩]

/-- The engine's top-level unit of reported non-conformance: a message, an
optional remediation hint, and optionally nested schema violations. -/
structure ValidationError where
  message : String
  howToFix : String
  schemaValidationErrors : List SchemaViolation
deriving DecidableEq

/-- A validation error carrying only a message. -/
def mkError (msg : String) : ValidationError :=
  ⟨msg, "", []⟩

/-- The four parameter locations of the OpenAPI contract. -/
inductive ParamLocation where
  | query
  | header
  | cookie
  | path
deriving DecidableEq

/-- The capitalized location word used in parameter error messages. -/
def ParamLocation.locName : ParamLocation → String
  | .query => "Query"
  | .header => "Header"
  | .cookie => "Cookie"
  | .path => "Path"

/-- The OpenAPI parameter serialization styles. -/
inductive ParamStyle where
  | form
  | simple
  | matrix
  | labelStyle
  | spaceDelimited
  | pipeDelimited
  | deepObject
deriving DecidableEq

/-- A parameter declaration of the contract: name, location, required
flag, allowed enum values (empty when the declaration has no enum), and the
serialization knobs style / explode / allowReserved. -/
structure Parameter where
  name : String
  location : ParamLocation
  required : Bool
  enum : List String
  style : ParamStyle
  explode : Bool
  allowReserved : Bool
deriving DecidableEq

/-- Modelled from the spec: the message for a required-but-absent
parameter, e.g. "Query parameter 'cheese' is missing". -/
def missingMessage (p : Parameter) : String :=
  p.location.locName ++ " parameter '" ++ p.name ++ "' is missing"

/-- Modelled from the spec: the message for a present parameter whose value
is not one of the declared enum values. -/
def enumMessage (p : Parameter) : String :=
  p.location.locName ++ " parameter '" ++ p.name ++ "' does not match allowed values"

/-- Modelled from the spec: the remediation hint for an enum violation,
listing the allowed values comma-joined in declaration order. -/
def enumHowToFix (p : Parameter) (given : String) : String :=
  "Instead of '" ++ given ++ "', use one of the allowed values: '" ++
    String.intercalate ", " p.enum ++ "'"

/-- The delimiter characters of the delimited serialization styles; under
allowReserved=false a raw value containing one of them was not
percent-encoded by the sender. -/
def reservedDelims : List Char := [',', ' ', '|']

/-- Whether a raw serialized value contains a delimiter / reserved
character, i.e. looks like a delimiter-joined collection. -/
def containsReservedDelim (s : String) : Bool :=
  s.toList.any (fun c => reservedDelims.contains c)

/-- Modelled from the spec: the allowReserved violation — the value holds
literal reserved characters although the declaration forbids them. -/
def reservedMessage (p : Parameter) : String :=
  p.location.locName ++ " parameter '" ++ p.name ++
    "' contains reserved values that must be percent-encoded"

/-- Modelled from the spec: the explode violation — a space/pipe-delimited
declaration with explode=true received a delimiter-joined value, a
declared-but-malformed combination that cannot be round-tripped. -/
def explodeMessage (p : Parameter) : String :=
  p.location.locName ++ " parameter '" ++ p.name ++
    "' is delimiter-joined although the declaration sets explode to true"

/-- Modelled from the spec: serialization-shape violations of one present
query-parameter value: the allowReserved check, then the explode check for
the delimited styles.  Both are collected, never just the first. -/
def serializationViolations (p : Parameter) (v : String) : List ValidationError :=
  if p.location == .query then
    (if !p.allowReserved && containsReservedDelim v then [mkError (reservedMessage p)] else []) ++
      (if p.explode && (p.style == .spaceDelimited || p.style == .pipeDelimited) &&
          !p.allowReserved && containsReservedDelim v then [mkError (explodeMessage p)] else [])
  else []

/-- Modelled from the spec: the Parameter Codec's validation of one
declared parameter against the raw value found for it in the request (none
when the request carries no such parameter).  A required-but-absent
parameter yields the missing violation; a present value is checked against
the declared enum and the serialization rules, all violations collected. -/
def validateParam (p : Parameter) (rawValue : Option String) : List ValidationError :=
  match rawValue with
  | none => if p.required then [mkError (missingMessage p)] else []
  | some v =>
      (if !p.enum.isEmpty && !p.enum.contains v then
        [⟨enumMessage p, enumHowToFix p v, []⟩] else []) ++
        serializationViolations p v

/-- Join strings with a single separator character. -/
def joinSep (sep : Char) (xs : List String) : String :=
  (List.intercalate [sep] (xs.map String.toList)).asString

/-- Split a string at every occurrence of a separator character. -/
def splitSep (sep : Char) (s : String) : List String :=
  (s.toList.splitOn sep).map List.asString

/-- A parameter value the codec serializes: an array of items or an
object of key-value pairs (a primitive travels as a one-item array). -/
inductive ParamValue where
  | arrVal (items : List String)
  | objVal (fields : List (String × String))
deriving DecidableEq

/-- The value shape the parameter declaration's schema expects, directing
the decoder. -/
inductive ValueShape where
  | arrShape
  | objShape
deriving DecidableEq

/-- The shape of a parameter value. -/
def ParamValue.shape : ParamValue → ValueShape
  | .arrVal _ => .arrShape
  | .objVal _ => .objShape

/-- The characters the serialization grammar uses structurally: the
styles' delimiters, the key-value separator and the deepObject brackets.
An item, key or value carrying one of them unencoded cannot be
round-tripped. -/
def structuralChars : List Char := [',', ' ', '|', ';', '.', '=', '[', ']']

/-- Whether a string is free of the grammar's structural characters. -/
def codecPlain (s : String) : Bool :=
  s.toList.all (fun c => !structuralChars.contains c)

/-- Whether a value is in the codec's serializable domain: non-empty,
every item, key and value free of structural characters. -/
def ParamValue.wellFormed : ParamValue → Bool
  | .arrVal xs => !xs.isEmpty && xs.all codecPlain
  | .objVal fields =>
      !fields.isEmpty && fields.all (fun f => codecPlain f.1 && codecPlain f.2)

/-- The legal style/value-shape combinations of the grammar:
spaceDelimited and pipeDelimited serve arrays only, deepObject objects
only, the other styles both shapes. -/
def legalCombo (style : ParamStyle) (v : ParamValue) : Bool :=
  match style, v with
  | .spaceDelimited, .objVal _ => false
  | .pipeDelimited, .objVal _ => false
  | .deepObject, .arrVal _ => false
  | _, _ => true

/-- The characters of one serialized key=value pair. -/
def pairChars (k v : String) : List Char :=
  k.toList ++ '=' :: v.toList

/-- The key=value pair read back from the characters of one serialized
pair; none when the text is not exactly one pair. -/
def splitPairChars (l : List Char) : Option (String × String) :=
  match l.splitOn '=' with
  | [k, v] => some (k.asString, v.asString)
  | _ => none

/-- The characters of a name-keyed chunk name=text, as the matrix style
emits after each semicolon. -/
def keyedChunk (name : String) (text : String) : List Char :=
  (name.toList ++ ['=']) ++ text.toList

/-- The characters of one deepObject occurrence name[key]=value. -/
def deepChunk (name k v : String) : List Char :=
  (name.toList ++ ['[']) ++ (k.toList ++ ']' :: '=' :: v.toList)

/-- An object's fields flattened to the alternating k1,v1,k2,v2 list the
explode=false object encodings join. -/
def interleavePairs (fields : List (String × String)) : List String :=
  fields.flatMap (fun f => [f.1, f.2])

/-- The fields read back from an alternating k1,v1,k2,v2 list; none on an
odd-length list. -/
def unInterleave : List String → Option (List (String × String))
  | [] => some []
  | k :: v :: rest => (unInterleave rest).map (fun ps => (k, v) :: ps)
  | _ :: [] => none

/-- The rest of a character list after a required prefix; none when the
prefix does not match. -/
def stripPre : List Char → List Char → Option (List Char)
  | [], rest => some rest
  | p :: ps, c :: cs => if c == p then stripPre ps cs else none
  | _ :: _, [] => none

/-- The some-values of a list of options; none as soon as one entry is
missing. -/
def allSome {α : Type} : List (Option α) → Option (List α)
  | [] => some []
  | some a :: rest => (allSome rest).map (fun l => a :: l)
  | none :: _ => none

/-- Modelled from the spec: the Parameter Codec's encoder — the serialized
occurrences of a parameter value under a style/explode combination, for a
parameter of the given name.  form with explode=true emits one occurrence
per array item or one key=value occurrence per object field, and the
delimited styles with explode=true behave like repeated occurrences; the
explode=false combinations join the collection (objects as alternating
key,value) with the style's delimiter into a single occurrence; matrix
prefixes with ;name= — repeated per item/field when explode is set, once
for the whole joined collection otherwise; label does the same with a
dot; deepObject emits one name[key]=value occurrence per field. -/
def encodeParameterValue (name : String) (style : ParamStyle) (explode : Bool) :
    ParamValue → List String
  | .arrVal xs =>
    match style, explode with
    | .form, true => xs
    | .form, false => [joinSep ',' xs]
    | .simple, _ => [joinSep ',' xs]
    | .spaceDelimited, true => xs
    | .spaceDelimited, false => [joinSep ' ' xs]
    | .pipeDelimited, true => xs
    | .pipeDelimited, false => [joinSep '|' xs]
    | .matrix, false => [(';' :: keyedChunk name (joinSep ',' xs)).asString]
    | .matrix, true => [(xs.flatMap (fun x => ';' :: keyedChunk name x)).asString]
    | .labelStyle, false => [('.' :: (joinSep ',' xs).toList).asString]
    | .labelStyle, true => [(xs.flatMap (fun x => '.' :: x.toList)).asString]
    | .deepObject, _ => []
  | .objVal fields =>
    match style, explode with
    | .form, true => fields.map (fun f => (pairChars f.1 f.2).asString)
    | .form, false => [joinSep ',' (interleavePairs fields)]
    | .simple, true => [joinSep ',' (fields.map (fun f => (pairChars f.1 f.2).asString))]
    | .simple, false => [joinSep ',' (interleavePairs fields)]
    | .matrix, true => [(fields.flatMap (fun f => ';' :: pairChars f.1 f.2)).asString]
    | .matrix, false =>
        [(';' :: keyedChunk name (joinSep ',' (interleavePairs fields))).asString]
    | .labelStyle, true => [(fields.flatMap (fun f => '.' :: pairChars f.1 f.2)).asString]
    | .labelStyle, false =>
        [('.' :: (joinSep ',' (interleavePairs fields)).toList).asString]
    | .deepObject, _ => fields.map (fun f => (deepChunk name f.1 f.2).asString)
    | .spaceDelimited, _ => []
    | .pipeDelimited, _ => []

/-- Modelled from the spec: the Parameter Codec's decoder, directed by the
declaration's name, style, explode and allowReserved knobs and the
schema's value shape.  Exploded occurrences are taken apart one item (or
one key=value pair) per occurrence; joined occurrences are split at the
style's delimiter; matrix and label occurrences are first stripped of
their ;name= or dot prefix; deepObject occurrences are parsed as
name[key]=value.  A delimited style with explode=true and
allowReserved=false receiving a value that still holds a delimiter is a
declared-but-malformed combination and yields a violation, never a
silently wrong decoded value; so does every occurrence that fails its
style's grammar. -/
def decodeParameterValue (name : String) (style : ParamStyle)
    (explode allowReserved : Bool) (shape : ValueShape) (occurrences : List String) :
    Except ValidationError ParamValue :=
  match shape with
  | .arrShape =>
    match style, explode with
    | .form, true => .ok (.arrVal occurrences)
    | .form, false =>
        match occurrences with
        | [s] => .ok (.arrVal (splitSep ',' s))
        | _ => .error (mkError "form style with explode=false expects a single occurrence")
    | .simple, _ =>
        match occurrences with
        | [s] => .ok (.arrVal (splitSep ',' s))
        | _ => .error (mkError "simple style expects a single occurrence")
    | .spaceDelimited, false =>
        match occurrences with
        | [s] => .ok (.arrVal (splitSep ' ' s))
        | _ => .error (mkError "spaceDelimited explode=false expects a single occurrence")
    | .pipeDelimited, false =>
        match occurrences with
        | [s] => .ok (.arrVal (splitSep '|' s))
        | _ => .error (mkError "pipeDelimited explode=false expects a single occurrence")
    | .spaceDelimited, true =>
        if !allowReserved && occurrences.any containsReservedDelim then
          .error (mkError
            "delimited value cannot be decoded under explode=true with allowReserved=false")
        else .ok (.arrVal occurrences)
    | .pipeDelimited, true =>
        if !allowReserved && occurrences.any containsReservedDelim then
          .error (mkError
            "delimited value cannot be decoded under explode=true with allowReserved=false")
        else .ok (.arrVal occurrences)
    | .matrix, false =>
        match occurrences with
        | [s] =>
          match s.toList with
          | ';' :: rest =>
            match stripPre (name.toList ++ ['=']) rest with
            | some t => .ok (.arrVal (splitSep ',' t.asString))
            | none => .error (mkError "matrix occurrence must carry the ;name= prefix")
          | _ => .error (mkError "matrix occurrence must carry the ;name= prefix")
        | _ => .error (mkError "matrix explode=false expects a single occurrence")
    | .matrix, true =>
        match occurrences with
        | [s] =>
          match s.toList with
          | ';' :: rest =>
            match allSome ((rest.splitOn ';').map (stripPre (name.toList ++ ['=']))) with
            | some ts => .ok (.arrVal (ts.map List.asString))
            | none => .error (mkError "matrix occurrence must carry the ;name= prefix")
          | _ => .error (mkError "matrix occurrence must carry the ;name= prefix")
        | _ => .error (mkError "matrix explode=true expects a single path segment")
    | .labelStyle, false =>
        match occurrences with
        | [s] =>
          match s.toList with
          | '.' :: rest => .ok (.arrVal (splitSep ',' rest.asString))
          | _ => .error (mkError "label occurrence must carry the dot prefix")
        | _ => .error (mkError "label explode=false expects a single occurrence")
    | .labelStyle, true =>
        match occurrences with
        | [s] =>
          match s.toList with
          | '.' :: rest => .ok (.arrVal ((rest.splitOn '.').map List.asString))
          | _ => .error (mkError "label occurrence must carry the dot prefix")
        | _ => .error (mkError "label explode=true expects a single path segment")
    | .deepObject, _ => .error (mkError "deepObject style serves object values only")
  | .objShape =>
    match style, explode with
    | .form, true =>
        match allSome (occurrences.map (fun s => splitPairChars s.toList)) with
        | some ps => .ok (.objVal ps)
        | none => .error (mkError "form exploded object occurrences must be key=value pairs")
    | .form, false =>
        match occurrences with
        | [s] =>
          match unInterleave (splitSep ',' s) with
          | some ps => .ok (.objVal ps)
          | none => .error (mkError "object text must alternate keys and values")
        | _ => .error (mkError "form style with explode=false expects a single occurrence")
    | .simple, true =>
        match occurrences with
        | [s] =>
          match allSome ((splitSep ',' s).map (fun part => splitPairChars part.toList)) with
          | some ps => .ok (.objVal ps)
          | none => .error (mkError "simple exploded object parts must be key=value pairs")
        | _ => .error (mkError "simple style expects a single occurrence")
    | .simple, false =>
        match occurrences with
        | [s] =>
          match unInterleave (splitSep ',' s) with
          | some ps => .ok (.objVal ps)
          | none => .error (mkError "object text must alternate keys and values")
        | _ => .error (mkError "simple style expects a single occurrence")
    | .matrix, true =>
        match occurrences with
        | [s] =>
          match s.toList with
          | ';' :: rest =>
            match allSome ((rest.splitOn ';').map splitPairChars) with
            | some ps => .ok (.objVal ps)
            | none => .error (mkError "matrix exploded object parts must be key=value pairs")
          | _ => .error (mkError "matrix occurrence must carry a semicolon prefix")
        | _ => .error (mkError "matrix explode=true expects a single path segment")
    | .matrix, false =>
        match occurrences with
        | [s] =>
          match s.toList with
          | ';' :: rest =>
            match stripPre (name.toList ++ ['=']) rest with
            | some t =>
              match unInterleave (splitSep ',' t.asString) with
              | some ps => .ok (.objVal ps)
              | none => .error (mkError "object text must alternate keys and values")
            | none => .error (mkError "matrix occurrence must carry the ;name= prefix")
          | _ => .error (mkError "matrix occurrence must carry the ;name= prefix")
        | _ => .error (mkError "matrix explode=false expects a single occurrence")
    | .labelStyle, true =>
        match occurrences with
        | [s] =>
          match s.toList with
          | '.' :: rest =>
            match allSome ((rest.splitOn '.').map splitPairChars) with
            | some ps => .ok (.objVal ps)
            | none => .error (mkError "label exploded object parts must be key=value pairs")
          | _ => .error (mkError "label occurrence must carry the dot prefix")
        | _ => .error (mkError "label explode=true expects a single path segment")
    | .labelStyle, false =>
        match occurrences with
        | [s] =>
          match s.toList with
          | '.' :: rest =>
            match unInterleave (splitSep ',' rest.asString) with
            | some ps => .ok (.objVal ps)
            | none => .error (mkError "object text must alternate keys and values")
          | _ => .error (mkError "label occurrence must carry the dot prefix")
        | _ => .error (mkError "label explode=false expects a single occurrence")
    | .deepObject, _ =>
        match allSome (occurrences.map (fun s =>
          match stripPre (name.toList ++ ['[']) s.toList with
          | some t =>
            match t.splitOn ']' with
            | [kc, ec] =>
              match ec with
              | '=' :: vc => some (kc.asString, vc.asString)
              | _ => none
            | _ => none
          | none => none)) with
        | some ps => .ok (.objVal ps)
        | none => .error (mkError "deepObject occurrences must be name[key]=value pairs")
    | .spaceDelimited, _ => .error (mkError "spaceDelimited style serves array values only")
    | .pipeDelimited, _ => .error (mkError "pipeDelimited style serves array values only")

/-- A request-body declaration: content-type to schema. -/
structure RequestBodyDecl where
  content : List (String × ObjectSchema)

/-- A declared response: content-type to schema. -/
structure ResponseDecl where
  content : List (String × ObjectSchema)

/-- An operation of a path item: its own parameters, an optional request
body and the responses keyed by status code, range pattern or default. -/
structure Operation where
  parameters : List Parameter
  requestBody : Option RequestBodyDecl
  responses : List (String × ResponseDecl)

/-- A path item: parameters shared by all its operations, and the
operations keyed by HTTP method. -/
structure PathItem where
  parameters : List Parameter
  operations : List (String × Operation)

/-- The contract: path templates to path items. -/
structure Document where
  paths : List (String × PathItem)

/-- The non-empty slash-separated segments of a path or template. -/
def pathSegments (p : String) : List (List Char) :=
  (p.toList.splitOn '/').filter (fun l => !l.isEmpty)

/-- Whether a template segment is a parameter capture, i.e. wrapped in
braces. -/
def isCaptureSeg (t : List Char) : Bool :=
  t.head? == some '{'

/-- Whether one template segment matches one request-path segment: a
capture segment matches any non-empty literal, a literal segment must
match exactly. -/
def segMatch (t s : List Char) : Bool :=
  if isCaptureSeg t then !s.isEmpty else t == s

/-- Modelled from the spec: whether a declared path template matches a
request path, segment by segment with equal segment counts. -/
def templateMatches (tmpl path : String) : Bool :=
  let ts := pathSegments tmpl
  let ps := pathSegments path
  ts.length == ps.length && (ts.zip ps).all (fun q => segMatch q.1 q.2)

/-- The number of literal (non-capture) segments of a template, the
most-specific-match tie-break measure. -/
def literalSegCount (tmpl : String) : Nat :=
  ((pathSegments tmpl).filter (fun t => !isCaptureSeg t)).length

/-- Of two matching templates, prefer the one with more literal
segments. -/
def pickMoreSpecific (a b : String × PathItem) : String × PathItem :=
  if literalSegCount b.1 > literalSegCount a.1 then b else a

/-- Modelled from the spec: the Operation Resolver's template lookup — the
matching template with the greatest number of literal segments, with its
path item; none when the request targets an undeclared path. -/
def findPath (doc : Document) (path : String) : Option (String × PathItem) :=
  match doc.paths.filter (fun q => templateMatches q.1 path) with
  | [] => none
  | m :: ms => some (ms.foldl pickMoreSpecific m)

/-- Modelled from the spec: the raw path-parameter values captured while
matching a template against a request path. -/
def extractPathParams (tmpl path : String) : List (String × String) :=
  ((pathSegments tmpl).zip (pathSegments path)).filterMap (fun q =>
    if isCaptureSeg q.1 then some (((q.1.drop 1).dropLast).asString, q.2.asString) else none)

/-- An observed HTTP request: method, path, decoded query / header /
cookie name-value pairs and an optional decoded JSON body. -/
structure HttpRequest where
  method : String
  urlPath : String
  query : List (String × String)
  headers : List (String × String)
  cookies : List (String × String)
  body : Option Json

/-- The request's content type, taken from its headers. -/
def HttpRequest.contentType (req : HttpRequest) : String :=
  (req.headers.lookup "Content-Type").getD ""

/-- An observed HTTP response: status code, headers and an optional
decoded JSON body. -/
structure HttpResponse where
  statusCode : Nat
  headers : List (String × String)
  body : Option Json

/-- The response's content type, taken from its headers. -/
def HttpResponse.contentType (res : HttpResponse) : String :=
  (res.headers.lookup "Content-Type").getD ""

/-- The raw value the request carries for a declared parameter, looked up
at the parameter's declared location. -/
def lookupRawValue (req : HttpRequest) (pathParams : List (String × String))
    (p : Parameter) : Option String :=
  match p.location with
  | .query => req.query.lookup p.name
  | .header => req.headers.lookup p.name
  | .cookie => req.cookies.lookup p.name
  | .path => pathParams.lookup p.name

/-- Every validate call returns the pair of the validity boolean and the
collected errors: true exactly when nothing was collected. -/
def finish (errs : List ValidationError) : Bool × List ValidationError :=
  (errs.isEmpty, errs)

/-- The parameters governing a request against an operation: the path
item's own and the operation's. -/
def declaredParams (item : PathItem) (op : Operation) : List Parameter :=
  item.parameters ++ op.parameters

/-- Modelled from the spec: all violations of the declared parameters at
one location, every parameter checked, none short-circuited. -/
def paramErrorsAt (ps : List Parameter) (req : HttpRequest)
    (pathParams : List (String × String)) (loc : ParamLocation) : List ValidationError :=
  (ps.filter (fun p => p.location == loc)).flatMap
    (fun p => validateParam p (lookupRawValue req pathParams p))

/-- Modelled from the spec: the parameter violations of a request in
discovery order — path, then query, then header, then cookie. -/
def allParamErrors (item : PathItem) (op : Operation) (req : HttpRequest)
    (pathParams : List (String × String)) : List ValidationError :=
  let ps := declaredParams item op
  paramErrorsAt ps req pathParams .path ++ paramErrorsAt ps req pathParams .query ++
    paramErrorsAt ps req pathParams .header ++ paramErrorsAt ps req pathParams .cookie

/-- Modelled from the spec: wrap a non-empty list of schema violations
into a single validation error carrying them nested; nothing when the
instance conforms. -/
def wrapSchemaViolations (msg : String) (violations : List SchemaViolation) :
    List ValidationError :=
  if violations.isEmpty then [] else [⟨msg, "", violations⟩]

/-- Modelled from the spec: request-body validation — content-type
negotiation against the declared media types (exact match), then the
Schema Adapter against the negotiated schema; an absent body when one is
declared is its own violation. -/
def requestBodyErrors (op : Operation) (req : HttpRequest) : List ValidationError :=
  match op.requestBody with
  | none => []
  | some rb =>
      match rb.content.lookup req.contentType with
      | none => [mkError ("request content type '" ++ req.contentType ++ "' is not declared")]
      | some schema =>
          match req.body with
          | none => [mkError "request body is required but absent"]
          | some j =>
              wrapSchemaViolations
                (req.method ++ " request body for '" ++ req.urlPath ++
                  "' failed to validate schema") (validateBody schema j)

/-- Modelled from the spec: every violation of a request against the
contract — operation resolution, then parameters in discovery order, then
the body. -/
def requestErrors (doc : Document) (req : HttpRequest) : List ValidationError :=
  match findPath doc req.urlPath with
  | none => [mkError ("Path '" ++ req.urlPath ++ "' not found")]
  | some (tmpl, item) =>
      match item.operations.lookup req.method with
      | none => [mkError (req.method ++ " method is not allowed for path '" ++ tmpl ++ "'")]
      | some op =>
          allParamErrors item op req (extractPathParams tmpl req.urlPath) ++
            requestBodyErrors op req

/-- Modelled from the spec: the facade's ValidateHttpRequest — validate a
request against the contract, valid exactly when no violation was
collected. -/
def ValidateHttpRequest (doc : Document) (req : HttpRequest) :
    Bool × List ValidationError :=
  finish (requestErrors doc req)

/-- The range pattern covering a status code, e.g. 407 falls under 4XX. -/
def rangePattern (code : Nat) : String :=
  toString (code / 100) ++ "XX"

/-- Modelled from the spec: the declared response for an observed status
code — exact code first, then the range pattern, then default. -/
def findResponseDecl (op : Operation) (code : Nat) : Option ResponseDecl :=
  match op.responses.lookup (toString code) with
  | some r => some r
  | none =>
      match op.responses.lookup (rangePattern code) with
      | some r => some r
      | none => op.responses.lookup "default"

/-- Modelled from the spec: every violation of a response against the
resolved operation — status-code declaration lookup, content-type
negotiation, then the Schema Adapter on the response body. -/
def responseErrors (doc : Document) (req : HttpRequest) (res : HttpResponse) :
    List ValidationError :=
  match findPath doc req.urlPath with
  | none => [mkError ("Path '" ++ req.urlPath ++ "' not found")]
  | some (tmpl, item) =>
      match item.operations.lookup req.method with
      | none => [mkError (req.method ++ " method is not allowed for path '" ++ tmpl ++ "'")]
      | some op =>
          match findResponseDecl op res.statusCode with
          | none =>
              [mkError (req.method ++ " operation request response code '" ++
                toString res.statusCode ++ "' does not exist")]
          | some rd =>
              match rd.content.lookup res.contentType with
              | none =>
                  [mkError ("response content type '" ++ res.contentType ++
                    "' is not declared")]
              | some schema =>
                  match res.body with
                  | none => []
                  | some j =>
                      wrapSchemaViolations
                        (req.method ++ " response body for '" ++ req.urlPath ++
                          "' failed to validate schema") (validateBody schema j)

/-- Modelled from the spec: the facade's ValidateHttpRequestResponse —
request-side and response-side validation are both executed, their
violations concatenated request-side first. -/
def ValidateHttpRequestResponse (doc : Document) (req : HttpRequest)
    (res : HttpResponse) : Bool × List ValidationError :=
  finish (requestErrors doc req ++ responseErrors doc req res)

/-- The parameter validator's state, embedding the source's paramValidator
struct: the document, the optionally pre-set path item with its path
value, and accumulated errors. -/
structure paramValidator where
  document : Option Document
  pathItem : Option PathItem
  pathValue : String
  errors : List ValidationError

/-- NewParameterValidator creates a validator over a document, with no
pre-set path item. -/
def NewParameterValidator (document : Document) : paramValidator :=
  { document := some document, pathItem := none, pathValue := "", errors := [] }

/-- SetPathItem sets the pathItem and pathValue of the validator; all
subsequent validations are performed against this path item. -/
def paramValidator.SetPathItem (v : paramValidator) (path : PathItem)
    (pathValue : String) : paramValidator :=
  { v with pathItem := some path, pathValue := pathValue }

/-- Modelled from the spec: the path item a validation call works
against — the pre-set one when SetPathItem was called, otherwise the one
resolved from the incoming request. -/
def paramValidator.resolvedPathItem (v : paramValidator) (req : HttpRequest) :
    Option (String × PathItem) :=
  match v.pathItem with
  | some item => some (v.pathValue, item)
  | none =>
      match v.document with
      | some doc => findPath doc req.urlPath
      | none => none

/-- Modelled from the spec: a sub-validator method — validate the declared
parameters of one location against the request, against the resolved path
item. -/
def paramValidator.validateLocation (v : paramValidator) (loc : ParamLocation)
    (req : HttpRequest) : Bool × List ValidationError :=
  match v.resolvedPathItem req with
  | none => finish [mkError ("Path '" ++ req.urlPath ++ "' not found")]
  | some (tmpl, item) =>
      let ps := item.parameters ++
        (match item.operations.lookup req.method with
          | some op => op.parameters
          | none => [])
      finish (paramErrorsAt ps req (extractPathParams tmpl req.urlPath) loc)

/-- ValidateQueryParams validates the query parameters for the request. -/
def paramValidator.ValidateQueryParams (v : paramValidator) (req : HttpRequest) :
    Bool × List ValidationError :=
  v.validateLocation .query req

/-- ValidateHeaderParams validates the header parameters for the request. -/
def paramValidator.ValidateHeaderParams (v : paramValidator) (req : HttpRequest) :
    Bool × List ValidationError :=
  v.validateLocation .header req

/-- ValidateCookieParams validates the cookie parameters for the request. -/
def paramValidator.ValidateCookieParams (v : paramValidator) (req : HttpRequest) :
    Bool × List ValidationError :=
  v.validateLocation .cookie req

/-- ValidatePathParams validates the path parameters for the request. -/
def paramValidator.ValidatePathParams (v : paramValidator) (req : HttpRequest) :
    Bool × List ValidationError :=
  v.validateLocation .path req

/-- The burger schema of the tests: name string, patties integer,
vegetarian boolean, nothing required. -/
def burgerSchema : ObjectSchema :=
  { props := [("name", .prim .pString), ("patties", .prim .pInteger),
      ("vegetarian", .prim .pBoolean)],
    required := [] }

/-- The createBurger path item: a POST operation with a JSON request body
of the burger schema. -/
def burgerPathItem : PathItem :=
  { parameters := [],
    operations := [("POST",
      { parameters := [],
        requestBody := some { content := [("application/json", burgerSchema)] },
        responses := [] })] }

/-- The createBurger contract: POST /burgers/createBurger with a JSON
request body of the burger schema. -/
def burgerDoc : Document :=
  { paths := [("/burgers/createBurger", burgerPathItem)] }

/-- The createBurger request with the valid body of the tests. -/
def validBurgerRequest : HttpRequest :=
  { method := "POST",
    urlPath := "/burgers/createBurger",
    query := [],
    headers := [("Content-Type", "application/json")],
    cookies := [],
    body := some (.jobj [("name", .jstr "Big Mac"), ("patties", .jint 2),
      ("vegetarian", .jbool true)]) }

/-- The same request with patties changed to false. -/
def invalidBurgerRequest : HttpRequest :=
  { validBurgerRequest with
    body := some (.jobj [("name", .jstr "Big Mac"), ("patties", .jbool false),
      ("vegetarian", .jbool true)]) }

/-- The required query parameter cheese of the invalid-query test. -/
def cheeseParam : Parameter :=
  { name := "cheese", location := .query, required := true, enum := [],
    style := .form, explode := true, allowReserved := false }

/-- The status query parameter of the petstore findByStatus operation,
with its declared enum. -/
def statusParam : Parameter :=
  { name := "status", location := .query, required := false,
    enum := ["available", "pending", "sold"],
    style := .form, explode := true, allowReserved := false }

/-- The tags query parameter of the petstore findByTags operation,
declared delimited with explode=true and allowReserved=false. -/
def tagsParam : Parameter :=
  { name := "tags", location := .query, required := false, enum := [],
    style := .spaceDelimited, explode := true, allowReserved := false }

/-- The petstore pet schema fragment the tests exercise: id, name,
category, photoUrls; name and photoUrls required. -/
def petSchema : ObjectSchema :=
  { props := [("id", .prim .pInteger), ("name", .prim .pString),
      ("category", .objectOf [("id", .pInteger), ("name", .pString)] []),
      ("photoUrls", .arrayOf .pString)],
    required := ["name", "photoUrls"] }

/-- The petstore contract fragment: POST /pet accepting a JSON pet body
and declaring only the 200 response. -/
def petstoreDoc : Document :=
  { paths := [("/pet",
      { parameters := [],
        operations := [("POST",
          { parameters := [],
            requestBody := some { content := [("application/json", petSchema)] },
            responses := [("200", { content := [("application/json", petSchema)] })] })] })] }

/-- The pet request of the invalid request-response test: the body misses
the required photoUrls property. -/
def petRequestMissingPhotoUrls : HttpRequest :=
  { method := "POST",
    urlPath := "/pet",
    query := [],
    headers := [("Content-Type", "application/json")],
    cookies := [],
    body := some (.jobj [("id", .jint 123), ("name", .jstr "cotton"),
      ("category", .jobj [("id", .jint 123), ("name", .jstr "dogs")])]) }

/-- The observed 407 response of the invalid request-response test. -/
def petResponse407 : HttpResponse :=
  { statusCode := 407,
    headers := [("Content-Type", "application/json")],
    body := some (.jobj [("id", .jint 123), ("name", .jstr "cotton"),
      ("category", .jobj [("id", .jint 123), ("name", .jstr "dogs")])]) }

/-- The burger request with two independent top-level primitive-type
mismatches: patties is a boolean, vegetarian an integer. -/
def doubleBadBurgerRequest : HttpRequest :=
  { validBurgerRequest with
    body := some (.jobj [("name", .jstr "Big Mac"), ("patties", .jbool false),
      ("vegetarian", .jint 2)]) }

/-- Helper: finish reports valid exactly when it collected nothing. -/
theorem finish_valid_iff (errs : List ValidationError) :
    (finish errs).1 = true ↔ (finish errs).2 = [] := by
  simp [finish]

/-- Helper: a sub-validator method's result always has the finish shape. -/
theorem validateLocation_eq_finish (v : paramValidator) (loc : ParamLocation)
    (req : HttpRequest) : ∃ errs, v.validateLocation loc req = finish errs := by
  unfold paramValidator.validateLocation
  rcases v.resolvedPathItem req with _ | ⟨tmpl, item⟩
  · exact ⟨_, rfl⟩
  · exact ⟨_, rfl⟩

/-- C1: For every validate call — ValidateHttpRequest,
ValidateHttpRequestResponse and each sub-validator method — the returned
boolean is true if and only if the returned list of validation errors is
empty. -/
theorem validity_iff_no_errors (doc : Document) (req : HttpRequest)
    (res : HttpResponse) (v : paramValidator) :
    ((ValidateHttpRequest doc req).1 = true ↔ (ValidateHttpRequest doc req).2 = []) ∧
    ((ValidateHttpRequestResponse doc req res).1 = true ↔
      (ValidateHttpRequestResponse doc req res).2 = []) ∧
    ((v.ValidateQueryParams req).1 = true ↔ (v.ValidateQueryParams req).2 = []) ∧
    ((v.ValidateHeaderParams req).1 = true ↔ (v.ValidateHeaderParams req).2 = []) ∧
    ((v.ValidateCookieParams req).1 = true ↔ (v.ValidateCookieParams req).2 = []) ∧
    ((v.ValidatePathParams req).1 = true ↔ (v.ValidatePathParams req).2 = []) := by
  have sub : ∀ loc : ParamLocation,
      (v.validateLocation loc req).1 = true ↔ (v.validateLocation loc req).2 = [] := by
    intro loc
    obtain ⟨errs, h⟩ := validateLocation_eq_finish v loc req
    rw [h]
    exact finish_valid_iff errs
  exact ⟨finish_valid_iff _, finish_valid_iff _, sub .query, sub .header,
    sub .cookie, sub .path⟩

/-- C2: The valid burger POST body validates with zero errors; the same
request with patties changed to false yields exactly one error whose
nested schema-violation reason is "expected integer, but got boolean". -/
theorem burger_post_body_scenario :
    ValidateHttpRequest burgerDoc validBurgerRequest = (true, []) ∧
    (ValidateHttpRequest burgerDoc invalidBurgerRequest).1 = false ∧
    (ValidateHttpRequest burgerDoc invalidBurgerRequest).2.map
        (fun e => e.schemaValidationErrors.map SchemaViolation.reason) =
      [["expected integer, but got boolean"]] :=
  ⟨rfl, rfl, rfl⟩

/-- C10: SetPathItem modifies only the pathItem and pathValue fields —
document and accumulated errors are unchanged — and a second call
overwrites the first, last write wins. -/
theorem set_path_item_frame (v : paramValidator) (item item2 : PathItem)
    (pv pv2 : String) :
    (v.SetPathItem item pv).document = v.document ∧
    (v.SetPathItem item pv).errors = v.errors ∧
    (v.SetPathItem item pv).pathItem = some item ∧
    (v.SetPathItem item pv).pathValue = pv ∧
    (v.SetPathItem item pv).SetPathItem item2 pv2 = v.SetPathItem item2 pv2 :=
  ⟨rfl, rfl, rfl, rfl, rfl⟩

/-- C9: After SetPathItem, every subsequent validation call on the
instance works against the set path item — resolution is skipped, so the
result does not depend on the validator's document — while without a set
path item resolution works from the incoming request's path. -/
theorem set_path_item_pins_resolution (v w : paramValidator) (item : PathItem)
    (pv : String) (req : HttpRequest) :
    ((v.SetPathItem item pv).resolvedPathItem req = some (pv, item)) ∧
    ((v.SetPathItem item pv).ValidateQueryParams req =
      (w.SetPathItem item pv).ValidateQueryParams req) ∧
    (v.pathItem = none → ∀ doc, v.document = some doc →
      v.resolvedPathItem req = findPath doc req.urlPath) := by
  refine ⟨rfl, rfl, ?_⟩
  intro hnone doc hdoc
  unfold paramValidator.resolvedPathItem
  rw [hnone, hdoc]

/-- Witness for C9 at a concrete validator, path item and request. -/
theorem set_path_item_pins_resolution_check :
    ((NewParameterValidator petstoreDoc).SetPathItem burgerPathItem
        "/burgers/createBurger").resolvedPathItem validBurgerRequest =
      some ("/burgers/createBurger", burgerPathItem) ∧
    (NewParameterValidator burgerDoc).resolvedPathItem validBurgerRequest =
      findPath burgerDoc validBurgerRequest.urlPath := by
  have h := set_path_item_pins_resolution (NewParameterValidator petstoreDoc)
    (NewParameterValidator burgerDoc) burgerPathItem "/burgers/createBurger"
    validBurgerRequest
  have h2 := (set_path_item_pins_resolution (NewParameterValidator burgerDoc)
    (NewParameterValidator burgerDoc) burgerPathItem "/burgers/createBurger"
    validBurgerRequest).2.2 rfl burgerDoc rfl
  exact ⟨h.1, h2⟩

/-- C5: Request-side and response-side validation are both executed and
their violations concatenated request-side first; the petstore pet POST
with a body missing photoUrls and an undeclared 407 response yields
exactly the schema violation "missing properties: 'photoUrls'" and the
response-code violation "POST operation request response code '407' does
not exist". -/
theorem request_response_violations_concatenated :
    (∀ (doc : Document) (req : HttpRequest) (res : HttpResponse),
      (ValidateHttpRequestResponse doc req res).2 =
        requestErrors doc req ++ responseErrors doc req res) ∧
    ValidateHttpRequestResponse petstoreDoc petRequestMissingPhotoUrls petResponse407 =
      (false,
       [⟨"POST request body for '/pet' failed to validate schema", "",
          [⟨"missing properties: 'photoUrls'"⟩]⟩,
        ⟨"POST operation request response code '407' does not exist", "", []⟩]) :=
  ⟨fun _ _ _ => rfl, by decide⟩

/-- C6: Validation never stops at the first violation: over an object
schema the violation list enumerates the outcome of every declared
property check, its length the sum of the per-property violation counts;
two independent top-level primitive-type mismatches in the burger body
yield exactly two nested schema violations. -/
theorem all_top_level_violations_enumerated :
    (∀ (props : List (String × FieldSchema)) (fields : List (String × Json)),
      validateBody ⟨props, []⟩ (.jobj fields) =
        props.flatMap (fun p => fieldViolations p.2 (fields.lookup p.1)) ∧
      (validateBody ⟨props, []⟩ (.jobj fields)).length =
        (props.map (fun p => (fieldViolations p.2 (fields.lookup p.1)).length)).sum) ∧
    (ValidateHttpRequest burgerDoc doubleBadBurgerRequest).2.map
        (fun e => e.schemaValidationErrors.map SchemaViolation.reason) =
      [["expected integer, but got boolean", "expected boolean, but got integer"]] := by
  refine ⟨fun props fields => ?_, by decide⟩
  have h : validateBody ⟨props, []⟩ (.jobj fields) =
      props.flatMap (fun p => fieldViolations p.2 (fields.lookup p.1)) := by
    simp [validateBody, requiredViolations]
  refine ⟨h, ?_⟩
  rw [h, List.length_flatMap]
  simp [Function.comp_def]

/-- C3: A required-but-absent parameter yields exactly one validation
error with message "<Location> parameter '<name>' is missing"; over a list
of declared parameters none of which the request carries, the collected
errors are exactly one such error per required parameter. -/
theorem missing_required_parameter_errors (p : Parameter) (ps : List Parameter)
    (req : HttpRequest) (pathParams : List (String × String)) :
    (p.required = true → validateParam p none =
      [mkError (p.location.locName ++ " parameter '" ++ p.name ++ "' is missing")]) ∧
    ((∀ q ∈ ps, lookupRawValue req pathParams q = none) →
      ps.flatMap (fun q => validateParam q (lookupRawValue req pathParams q)) =
        (ps.filter (fun q => q.required)).map (fun q => mkError (missingMessage q))) := by
  constructor
  · intro h
    simp [validateParam, h, missingMessage]
  · intro hall
    induction ps with
    | nil => rfl
    | cons q qs ih =>
        have hq : lookupRawValue req pathParams q = none := hall q (by simp)
        have hqs := ih (fun r hr => hall r (List.mem_cons_of_mem q hr))
        rw [List.flatMap_cons, hq, List.filter_cons]
        rcases hreq : q.required with _ | _
        · rw [show validateParam q none = [] from by simp [validateParam, hreq]]
          simpa [hreq] using hqs
        · rw [show validateParam q none = [mkError (missingMessage q)] from by
            simp [validateParam, hreq]]
          simp [hreq, hqs]

/-- Witness for C3 at the required query parameter cheese of the tests. -/
theorem missing_required_parameter_errors_check :
    cheeseParam.required = true ∧
    validateParam cheeseParam none = [mkError "Query parameter 'cheese' is missing"] := by
  refine ⟨rfl, ?_⟩
  have h := (missing_required_parameter_errors cheeseParam [] validBurgerRequest []).1 rfl
  rw [h]
  rfl

/-- C4: A query parameter declared with an enum and given a non-member
value produces exactly one error with message "Query parameter '<name>'
does not match allowed values" and the remediation hint "Instead of
'<given>', use one of the allowed values: '<v1, v2, ...>'", the allowed
values comma-joined in declaration order. -/
theorem enum_violation_error (p : Parameter) (v : String)
    (hloc : p.location = .query) (hne : p.enum ≠ [])
    (hmem : v ∉ p.enum) (hdelim : containsReservedDelim v = false) :
    validateParam p (some v) =
      [⟨"Query parameter '" ++ p.name ++ "' does not match allowed values",
        "Instead of '" ++ v ++ "', use one of the allowed values: '" ++
          String.intercalate ", " p.enum ++ "'", []⟩] := by
  simp [validateParam, serializationViolations, hloc, hne, hmem, hdelim,
    enumMessage, enumHowToFix, ParamLocation.locName]

/-- Witness for C4 at the petstore status parameter and the value
invalidEnum of the tests. -/
theorem enum_violation_error_check :
    validateParam statusParam (some "invalidEnum") =
      [⟨"Query parameter 'status' does not match allowed values",
        "Instead of 'invalidEnum', use one of the allowed values: 'available, pending, sold'",
        []⟩] := by
  have h := enum_violation_error statusParam "invalidEnum" rfl
    (by decide) (by decide) (by decide)
  rw [h]
  rfl

/-- C7: A query parameter declared spaceDelimited or pipeDelimited with
explode=true and allowReserved=false receiving a delimiter-joined value is
flagged — the allowReserved violation and the explode violation are both
collected — rather than silently decoded. -/
theorem delimited_explode_flagged (p : Parameter) (v : String)
    (hloc : p.location = .query)
    (hstyle : p.style = .spaceDelimited ∨ p.style = .pipeDelimited)
    (hexp : p.explode = true) (har : p.allowReserved = false)
    (henum : p.enum = []) (hdelim : containsReservedDelim v = true) :
    validateParam p (some v) = [mkError (reservedMessage p), mkError (explodeMessage p)] ∧
    validateParam p (some v) ≠ [] := by
  have h : validateParam p (some v) =
      [mkError (reservedMessage p), mkError (explodeMessage p)] := by
    rcases hstyle with hs | hs <;>
      simp [validateParam, serializationViolations, hloc, hexp, har, henum, hdelim, hs]
  exact ⟨h, by simp [h]⟩

/-- Witness for C7 at the petstore tags parameter receiving the
comma-joined value of the findByTags test, yielding two errors. -/
theorem delimited_explode_flagged_check :
    validateParam tagsParam (some "fuzzy,wuzzy") =
      [mkError (reservedMessage tagsParam), mkError (explodeMessage tagsParam)] ∧
    (validateParam tagsParam (some "fuzzy,wuzzy")).length = 2 := by
  have h := delimited_explode_flagged tagsParam "fuzzy,wuzzy" rfl (Or.inl rfl)
    rfl rfl rfl (by decide)
  exact ⟨h.1, by rw [h.1]; rfl⟩

/-- Helper: the characters of a string rebuilt from a character list. -/
theorem toList_asString (l : List Char) : (List.asString l).toList = l := rfl

/-- Helper: a string rebuilt from its own characters. -/
theorem asString_toList (s : String) : (String.toList s).asString = s := rfl

/-- Helper: a string free of delimiter characters contains none of
them. -/
theorem not_mem_of_no_delim {x : String} (h : containsReservedDelim x = false)
    {c : Char} (hc : c ∈ reservedDelims) : c ∉ x.toList := by
  simp only [containsReservedDelim, List.any_eq_false] at h
  intro hm
  exact h c hm (by simpa using hc)

/-- Helper: splitting at a separator undoes joining with it, provided the
parts are non-empty as a list and free of the separator. -/
theorem splitSep_joinSep {sep : Char} {xs : List String} (hne : xs ≠ [])
    (h : ∀ x ∈ xs, sep ∉ x.toList) : splitSep sep (joinSep sep xs) = xs := by
  unfold splitSep joinSep
  rw [toList_asString]
  have h1 : ∀ l ∈ xs.map String.toList, sep ∉ l := by
    intro l hl
    obtain ⟨x, hx, rfl⟩ := List.mem_map.1 hl
    exact h x hx
  have h2 : xs.map String.toList ≠ [] := by simpa using hne
  rw [List.splitOn_intercalate (xs.map String.toList) sep h1 h2]
  rw [List.map_map]
  have hid : (List.asString ∘ String.toList) = id := funext fun s => rfl
  rw [hid, List.map_id]

/-- Helper: stripping a prefix from a list that carries it returns the
rest. -/
theorem stripPre_append (p rest : List Char) : stripPre p (p ++ rest) = some rest := by
  induction p with
  | nil => rfl
  | cons c cs ih => simp [stripPre, ih]

/-- Helper: collecting options over a map where every entry is some
returns the mapped values. -/
theorem allSome_map {α β : Type} (l : List α) (f : α → Option β) (g : α → β)
    (h : ∀ x ∈ l, f x = some (g x)) : allSome (l.map f) = some (l.map g) := by
  induction l with
  | nil => rfl
  | cons x xs ih =>
      rw [List.map_cons, h x (by simp), allSome,
        ih (fun y hy => h y (List.mem_cons_of_mem x hy))]
      rfl

/-- Helper: reading alternating keys and values back undoes the
flattening of an object's fields. -/
theorem unInterleave_interleavePairs (fields : List (String × String)) :
    unInterleave (interleavePairs fields) = some fields := by
  induction fields with
  | nil => rfl
  | cons f fs ih =>
      have hstep : interleavePairs (f :: fs) = f.1 :: f.2 :: interleavePairs fs := by
        simp [interleavePairs]
      rw [hstep]
      simp [unInterleave, ih]

/-- Helper: emitting a separator before each chunk is the same as one
leading separator before the separator-joined chunks. -/
theorem flatMap_cons_intercalate {α : Type} (sep : Char) (f : α → List Char) :
    ∀ xs : List α, xs ≠ [] →
      xs.flatMap (fun x => sep :: f x) = sep :: List.intercalate [sep] (xs.map f)
  | [], h => absurd rfl h
  | [x], _ => by simp [List.intercalate]
  | x :: y :: ys, _ => by
      rw [List.flatMap_cons, flatMap_cons_intercalate sep f (y :: ys) (by simp)]
      simp [List.intercalate, List.intersperse]

/-- Helper: splitting a single separator occurrence between two
separator-free parts yields exactly the two parts. -/
theorem splitOn_append_cons {sep : Char} (a b : List Char)
    (ha : sep ∉ a) (hb : sep ∉ b) : (a ++ sep :: b).splitOn sep = [a, b] := by
  have h1 : ∀ l ∈ [a, b], sep ∉ l := by
    intro l hl
    have hab : l = a ∨ l = b := by simpa using hl
    rcases hab with rfl | rfl
    · exact ha
    · exact hb
  have h2 := List.splitOn_intercalate [a, b] sep h1 (by simp)
  simpa [List.intercalate, List.intersperse] using h2

/-- Helper: reading one serialized key=value pair back undoes pairChars
when key and value carry no equals sign. -/
theorem splitPair_pairChars {k v : String} (hk : '=' ∉ k.toList)
    (hv : '=' ∉ v.toList) : splitPairChars (pairChars k v) = some (k, v) := by
  unfold splitPairChars pairChars
  rw [splitOn_append_cons k.toList v.toList hk hv]
  simp
  exact ⟨asString_toList k, asString_toList v⟩

/-- Helper: a codec-plain string contains no structural character. -/
theorem plain_not_mem {x : String} (h : codecPlain x = true) {c : Char}
    (hc : c ∈ structuralChars) : c ∉ x.toList := by
  simp only [codecPlain, List.all_eq_true] at h
  intro hm
  have h2 := h c hm
  rw [Bool.not_eq_true'] at h2
  exact absurd hc (by simpa using h2)

/-- Helper: a codec-plain string carries no reserved delimiter. -/
theorem plain_no_reserved {x : String} (h : codecPlain x = true) :
    containsReservedDelim x = false := by
  simp only [containsReservedDelim]
  rw [List.any_eq_false]
  intro c hc hcon
  have hmem : c ∈ reservedDelims := by simpa using hcon
  have hsub : ∀ d ∈ reservedDelims, d ∈ structuralChars := by decide
  exact plain_not_mem h (hsub c hmem) hc

/-- Helper: rebuilding strings from their character lists is the
identity on a mapped list. -/
theorem map_asString_map_toList (xs : List String) :
    (xs.map String.toList).map List.asString = xs := by
  rw [List.map_map]
  have hid : (List.asString ∘ String.toList) = id := funext fun s => rfl
  rw [hid, List.map_id]

/-- Helper: the round-trip of the codec over an array value, for every
legal style/explode/allowReserved combination. -/
theorem codec_round_trip_arr (name : String) (style : ParamStyle)
    (explode allowReserved : Bool) (xs : List String)
    (hLegal : legalCombo style (.arrVal xs) = true)
    (hWF : (ParamValue.arrVal xs).wellFormed = true)
    (hName : codecPlain name = true) :
    decodeParameterValue name style explode allowReserved .arrShape
      (encodeParameterValue name style explode (.arrVal xs)) = .ok (.arrVal xs) := by
  simp only [ParamValue.wellFormed, Bool.and_eq_true, Bool.not_eq_true',
    List.all_eq_true] at hWF
  obtain ⟨hne0, hall⟩ := hWF
  have hne : xs ≠ [] := by
    intro h
    rw [h] at hne0
    simp at hne0
  have hplain : ∀ (c : Char), c ∈ structuralChars → ∀ x ∈ xs, c ∉ x.toList :=
    fun c hc x hx => plain_not_mem (hall x hx) hc
  have hjoin : ∀ sep : Char, sep ∈ structuralChars →
      splitSep sep (joinSep sep xs) = xs := fun sep hsep =>
    splitSep_joinSep hne (fun x hx => hplain sep hsep x hx)
  have hany : xs.any containsReservedDelim = false := by
    rw [List.any_eq_false]
    intro x hx
    simp [plain_no_reserved (hall x hx)]
  cases style with
  | form =>
      cases explode
      · simp [encodeParameterValue, decodeParameterValue, hjoin ',' (by decide)]
      · simp [encodeParameterValue, decodeParameterValue]
  | simple =>
      cases explode <;>
        simp [encodeParameterValue, decodeParameterValue, hjoin ',' (by decide)]
  | spaceDelimited =>
      cases explode
      · simp [encodeParameterValue, decodeParameterValue, hjoin ' ' (by decide)]
      · simp [encodeParameterValue, decodeParameterValue, hany]
  | pipeDelimited =>
      cases explode
      · simp [encodeParameterValue, decodeParameterValue, hjoin '|' (by decide)]
      · simp [encodeParameterValue, decodeParameterValue, hany]
  | matrix =>
      cases explode
      · have step1 : decodeParameterValue name .matrix false allowReserved .arrShape
            (encodeParameterValue name .matrix false (.arrVal xs)) =
            (match stripPre (name.toList ++ ['=']) (keyedChunk name (joinSep ',' xs)) with
              | some t => Except.ok (ParamValue.arrVal (splitSep ',' t.asString))
              | none =>
                  Except.error (mkError "matrix occurrence must carry the ;name= prefix")) := rfl
        rw [step1,
          show keyedChunk name (joinSep ',' xs) =
            (name.toList ++ ['=']) ++ (joinSep ',' xs).toList from rfl,
          stripPre_append]
        show Except.ok (ParamValue.arrVal
            (splitSep ',' ((String.toList (joinSep ',' xs)).asString))) = _
        rw [asString_toList, hjoin ',' (by decide)]
      · have hchunks : ∀ l ∈ xs.map (keyedChunk name), ';' ∉ l := by
          intro l hl
          obtain ⟨x, hx, rfl⟩ := List.mem_map.1 hl
          have h1 : ';' ∉ name.toList := plain_not_mem hName (by decide)
          have h2 : ';' ∉ x.toList := hplain ';' (by decide) x hx
          intro hmem
          simp only [keyedChunk, List.mem_append, List.mem_cons, List.mem_singleton,
            List.not_mem_nil, or_false] at hmem
          rcases hmem with (h | h) | h
          · exact h1 h
          · exact absurd h (by decide)
          · exact h2 h
        have hsplit : (List.intercalate [';'] (xs.map (keyedChunk name))).splitOn ';' =
            xs.map (keyedChunk name) :=
          List.splitOn_intercalate (xs.map (keyedChunk name)) ';' hchunks (by simpa using hne)
        have henc : encodeParameterValue name .matrix true (.arrVal xs) =
            [(';' :: List.intercalate [';'] (xs.map (keyedChunk name))).asString] := by
          show [((xs.flatMap (fun x => ';' :: keyedChunk name x))).asString] = _
          rw [flatMap_cons_intercalate ';' (keyedChunk name) xs hne]
        rw [henc]
        have step2 : decodeParameterValue name .matrix true allowReserved .arrShape
            [(';' :: List.intercalate [';'] (xs.map (keyedChunk name))).asString] =
            (match allSome (((List.intercalate [';'] (xs.map (keyedChunk name))).splitOn
                ';').map (stripPre (name.toList ++ ['=']))) with
              | some ts => Except.ok (ParamValue.arrVal (ts.map List.asString))
              | none =>
                  Except.error (mkError "matrix occurrence must carry the ;name= prefix")) := rfl
        rw [step2, hsplit, List.map_map,
          allSome_map xs (stripPre (name.toList ++ ['=']) ∘ keyedChunk name) String.toList
            (fun x hx => stripPre_append (name.toList ++ ['=']) x.toList)]
        show Except.ok (ParamValue.arrVal ((xs.map String.toList).map List.asString)) = _
        rw [map_asString_map_toList]
  | labelStyle =>
      cases explode
      · have step1 : decodeParameterValue name .labelStyle false allowReserved .arrShape
            (encodeParameterValue name .labelStyle false (.arrVal xs)) =
            Except.ok (ParamValue.arrVal
              (splitSep ',' ((String.toList (joinSep ',' xs)).asString))) := rfl
        rw [step1, asString_toList, hjoin ',' (by decide)]
      · have hchunks : ∀ l ∈ xs.map String.toList, '.' ∉ l := by
          intro l hl
          obtain ⟨x, hx, rfl⟩ := List.mem_map.1 hl
          exact hplain '.' (by decide) x hx
        have hsplit : (List.intercalate ['.'] (xs.map String.toList)).splitOn '.' =
            xs.map String.toList :=
          List.splitOn_intercalate (xs.map String.toList) '.' hchunks (by simpa using hne)
        have henc : encodeParameterValue name .labelStyle true (.arrVal xs) =
            [('.' :: List.intercalate ['.'] (xs.map String.toList)).asString] := by
          show [((xs.flatMap (fun x => '.' :: x.toList))).asString] = _
          rw [flatMap_cons_intercalate '.' String.toList xs hne]
        rw [henc]
        have step2 : decodeParameterValue name .labelStyle true allowReserved .arrShape
            [('.' :: List.intercalate ['.'] (xs.map String.toList)).asString] =
            Except.ok (ParamValue.arrVal
              (((List.intercalate ['.'] (xs.map String.toList)).splitOn '.').map
                List.asString)) := rfl
        rw [step2, hsplit, map_asString_map_toList]
  | deepObject => simp [legalCombo] at hLegal



/-- Helper: the round-trip of the codec over an object value, for every
legal style/explode/allowReserved combination. -/
theorem codec_round_trip_obj (name : String) (style : ParamStyle)
    (explode allowReserved : Bool) (fields : List (String × String))
    (hLegal : legalCombo style (.objVal fields) = true)
    (hWF : (ParamValue.objVal fields).wellFormed = true)
    (_hName : codecPlain name = true) :
    decodeParameterValue name style explode allowReserved .objShape
      (encodeParameterValue name style explode (.objVal fields)) = .ok (.objVal fields) := by
  simp only [ParamValue.wellFormed, Bool.and_eq_true, List.all_eq_true] at hWF
  obtain ⟨hne0, hall⟩ := hWF
  have hne : fields ≠ [] := by
    intro h
    rw [h] at hne0
    simp at hne0
  have hkeys : ∀ (c : Char), c ∈ structuralChars → ∀ f ∈ fields,
      c ∉ f.1.toList ∧ c ∉ f.2.toList :=
    fun c hc f hf => ⟨plain_not_mem (hall f hf).1 hc, plain_not_mem (hall f hf).2 hc⟩
  have hintne : interleavePairs fields ≠ [] := by
    obtain ⟨f, fs, rfl⟩ := List.exists_cons_of_ne_nil hne
    simp [interleavePairs]
  have hintplain : ∀ x ∈ interleavePairs fields, codecPlain x = true := by
    intro x hx
    simp only [interleavePairs, List.mem_flatMap] at hx
    obtain ⟨f, hf, hx2⟩ := hx
    simp only [List.mem_cons, List.not_mem_nil, or_false] at hx2
    rcases hx2 with rfl | rfl
    · exact (hall f hf).1
    · exact (hall f hf).2
  have hjoinI : splitSep ',' (joinSep ',' (interleavePairs fields)) = interleavePairs fields :=
    splitSep_joinSep hintne (fun x hx => plain_not_mem (hintplain x hx) (by decide))
  have hpairNoSep : ∀ (c : Char), c ∈ structuralChars → c ≠ '=' →
      ∀ f ∈ fields, c ∉ pairChars f.1 f.2 := by
    intro c hc hcne f hf hmem
    simp only [pairChars, List.mem_append, List.mem_cons] at hmem
    rcases hmem with h | h | h
    · exact (hkeys c hc f hf).1 h
    · exact hcne h
    · exact (hkeys c hc f hf).2 h
  have hpairsome : ∀ f ∈ fields, splitPairChars (pairChars f.1 f.2) = some f := by
    intro f hf
    have h := splitPair_pairChars (plain_not_mem (hall f hf).1 (by decide))
      (plain_not_mem (hall f hf).2 (by decide))
    simpa using h
  have hps : allSome ((fields.map (fun f => (pairChars f.1 f.2).asString)).map
      (fun s => splitPairChars s.toList)) = some fields := by
    rw [List.map_map]
    have h := allSome_map fields
      ((fun s => splitPairChars s.toList) ∘ (fun f => (pairChars f.1 f.2).asString))
      (fun f => f) (fun f hf => by
        show splitPairChars ((pairChars f.1 f.2).asString).toList = some f
        rw [toList_asString]
        exact hpairsome f hf)
    simpa using h
  cases style with
  | form =>
      cases explode
      · have step1 : decodeParameterValue name .form false allowReserved .objShape
            (encodeParameterValue name .form false (.objVal fields)) =
            (match unInterleave (splitSep ',' (joinSep ',' (interleavePairs fields))) with
              | some ps => Except.ok (ParamValue.objVal ps)
              | none =>
                  Except.error (mkError "object text must alternate keys and values")) := rfl
        rw [step1, hjoinI, unInterleave_interleavePairs]
      · have step1 : decodeParameterValue name .form true allowReserved .objShape
            (encodeParameterValue name .form true (.objVal fields)) =
            (match allSome ((fields.map (fun f => (pairChars f.1 f.2).asString)).map
                (fun s => splitPairChars s.toList)) with
              | some ps => Except.ok (ParamValue.objVal ps)
              | none => Except.error
                  (mkError "form exploded object occurrences must be key=value pairs")) := rfl
        rw [step1, hps]
  | simple =>
      cases explode
      · have step1 : decodeParameterValue name .simple false allowReserved .objShape
            (encodeParameterValue name .simple false (.objVal fields)) =
            (match unInterleave (splitSep ',' (joinSep ',' (interleavePairs fields))) with
              | some ps => Except.ok (ParamValue.objVal ps)
              | none =>
                  Except.error (mkError "object text must alternate keys and values")) := rfl
        rw [step1, hjoinI, unInterleave_interleavePairs]
      · have hysne : fields.map (fun f => (pairChars f.1 f.2).asString) ≠ [] := by
          simpa using hne
        have hysplain : ∀ y ∈ fields.map (fun f => (pairChars f.1 f.2).asString),
            ',' ∉ y.toList := by
          intro y hy
          obtain ⟨f, hf, rfl⟩ := List.mem_map.1 hy
          rw [toList_asString]
          exact hpairNoSep ',' (by decide) (by decide) f hf
        have hjoinY : splitSep ','
            (joinSep ',' (fields.map (fun f => (pairChars f.1 f.2).asString))) =
            fields.map (fun f => (pairChars f.1 f.2).asString) :=
          splitSep_joinSep hysne hysplain
        have step1 : decodeParameterValue name .simple true allowReserved .objShape
            (encodeParameterValue name .simple true (.objVal fields)) =
            (match allSome ((splitSep ','
                (joinSep ',' (fields.map (fun f => (pairChars f.1 f.2).asString)))).map
                (fun part => splitPairChars part.toList)) with
              | some ps => Except.ok (ParamValue.objVal ps)
              | none => Except.error
                  (mkError "simple exploded object parts must be key=value pairs")) := rfl
        rw [step1, hjoinY, hps]
  | spaceDelimited => simp [legalCombo] at hLegal
  | pipeDelimited => simp [legalCombo] at hLegal
  | matrix =>
      cases explode
      · have step1 : decodeParameterValue name .matrix false allowReserved .objShape
            (encodeParameterValue name .matrix false (.objVal fields)) =
            (match stripPre (name.toList ++ ['='])
                (keyedChunk name (joinSep ',' (interleavePairs fields))) with
              | some t =>
                  (match unInterleave (splitSep ',' t.asString) with
                    | some ps => Except.ok (ParamValue.objVal ps)
                    | none =>
                        Except.error (mkError "object text must alternate keys and values"))
              | none =>
                  Except.error (mkError "matrix occurrence must carry the ;name= prefix")) := rfl
        rw [step1,
          show keyedChunk name (joinSep ',' (interleavePairs fields)) =
            (name.toList ++ ['=']) ++ (joinSep ',' (interleavePairs fields)).toList from rfl,
          stripPre_append]
        show (match unInterleave (splitSep ','
            ((String.toList (joinSep ',' (interleavePairs fields))).asString)) with
          | some ps => Except.ok (ParamValue.objVal ps)
          | none => Except.error (mkError "object text must alternate keys and values")) = _
        rw [asString_toList, hjoinI, unInterleave_interleavePairs]
      · have hchunksP : ∀ l ∈ fields.map (fun f => pairChars f.1 f.2), ';' ∉ l := by
          intro l hl
          obtain ⟨f, hf, rfl⟩ := List.mem_map.1 hl
          exact hpairNoSep ';' (by decide) (by decide) f hf
        have hsplitP : (List.intercalate [';']
            (fields.map (fun f => pairChars f.1 f.2))).splitOn ';' =
            fields.map (fun f => pairChars f.1 f.2) :=
          List.splitOn_intercalate (fields.map (fun f => pairChars f.1 f.2)) ';' hchunksP
            (by simpa using hne)
        have henc : encodeParameterValue name .matrix true (.objVal fields) =
            [(';' :: List.intercalate [';']
              (fields.map (fun f => pairChars f.1 f.2))).asString] := by
          show [((fields.flatMap (fun f => ';' :: pairChars f.1 f.2))).asString] = _
          rw [flatMap_cons_intercalate ';' (fun f => pairChars f.1 f.2) fields hne]
        rw [henc]
        have step2 : decodeParameterValue name .matrix true allowReserved .objShape
            [(';' :: List.intercalate [';']
              (fields.map (fun f => pairChars f.1 f.2))).asString] =
            (match allSome (((List.intercalate [';']
                (fields.map (fun f => pairChars f.1 f.2))).splitOn ';').map splitPairChars) with
              | some ps => Except.ok (ParamValue.objVal ps)
              | none => Except.error
                  (mkError "matrix exploded object parts must be key=value pairs")) := rfl
        rw [step2, hsplitP, List.map_map,
          allSome_map fields (splitPairChars ∘ fun f => pairChars f.1 f.2) (fun f => f)
            (fun f hf => hpairsome f hf)]
        simp
  | labelStyle =>
      cases explode
      · have step1 : decodeParameterValue name .labelStyle false allowReserved .objShape
            (encodeParameterValue name .labelStyle false (.objVal fields)) =
            (match unInterleave (splitSep ','
                ((String.toList (joinSep ',' (interleavePairs fields))).asString)) with
              | some ps => Except.ok (ParamValue.objVal ps)
              | none =>
                  Except.error (mkError "object text must alternate keys and values")) := rfl
        rw [step1, asString_toList, hjoinI, unInterleave_interleavePairs]
      · have hchunksP : ∀ l ∈ fields.map (fun f => pairChars f.1 f.2), '.' ∉ l := by
          intro l hl
          obtain ⟨f, hf, rfl⟩ := List.mem_map.1 hl
          exact hpairNoSep '.' (by decide) (by decide) f hf
        have hsplitP : (List.intercalate ['.']
            (fields.map (fun f => pairChars f.1 f.2))).splitOn '.' =
            fields.map (fun f => pairChars f.1 f.2) :=
          List.splitOn_intercalate (fields.map (fun f => pairChars f.1 f.2)) '.' hchunksP
            (by simpa using hne)
        have henc : encodeParameterValue name .labelStyle true (.objVal fields) =
            [('.' :: List.intercalate ['.']
              (fields.map (fun f => pairChars f.1 f.2))).asString] := by
          show [((fields.flatMap (fun f => '.' :: pairChars f.1 f.2))).asString] = _
          rw [flatMap_cons_intercalate '.' (fun f => pairChars f.1 f.2) fields hne]
        rw [henc]
        have step2 : decodeParameterValue name .labelStyle true allowReserved .objShape
            [('.' :: List.intercalate ['.']
              (fields.map (fun f => pairChars f.1 f.2))).asString] =
            (match allSome (((List.intercalate ['.']
                (fields.map (fun f => pairChars f.1 f.2))).splitOn '.').map splitPairChars) with
              | some ps => Except.ok (ParamValue.objVal ps)
              | none => Except.error
                  (mkError "label exploded object parts must be key=value pairs")) := rfl
        rw [step2, hsplitP, List.map_map,
          allSome_map fields (splitPairChars ∘ fun f => pairChars f.1 f.2) (fun f => f)
            (fun f hf => hpairsome f hf)]
        simp
  | deepObject =>
      have hdeep : allSome ((fields.map (fun f => (deepChunk name f.1 f.2).asString)).map
          (fun s =>
            match stripPre (name.toList ++ ['[']) s.toList with
            | some t =>
              match t.splitOn ']' with
              | [kc, ec] =>
                match ec with
                | '=' :: vc => some (kc.asString, vc.asString)
                | _ => none
              | _ => none
            | none => none)) = some fields := by
        rw [List.map_map]
        have h := allSome_map fields
          ((fun s =>
            match stripPre (name.toList ++ ['[']) s.toList with
            | some t =>
              match t.splitOn ']' with
              | [kc, ec] =>
                match ec with
                | '=' :: vc => some (kc.asString, vc.asString)
                | _ => none
              | _ => none
            | none => none) ∘ (fun f => (deepChunk name f.1 f.2).asString))
          (fun f => f) (fun f hf => by
            have hk : ']' ∉ f.1.toList := plain_not_mem (hall f hf).1 (by decide)
            have hb : ']' ∉ '=' :: f.2.toList := by
              intro hmem
              simp only [List.mem_cons] at hmem
              rcases hmem with h | h
              · exact absurd h (by decide)
              · exact plain_not_mem (hall f hf).2 (by decide) h
            show (match stripPre (name.toList ++ ['['])
                ((deepChunk name f.1 f.2).asString).toList with
              | some t =>
                match t.splitOn ']' with
                | [kc, ec] =>
                  match ec with
                  | '=' :: vc => some (kc.asString, vc.asString)
                  | _ => none
                | _ => none
              | none => none) = some f
            rw [toList_asString,
              show deepChunk name f.1 f.2 =
                (name.toList ++ ['[']) ++ (f.1.toList ++ ']' :: '=' :: f.2.toList) from rfl,
              stripPre_append]
            show (match (f.1.toList ++ ']' :: '=' :: f.2.toList).splitOn ']' with
              | [kc, ec] =>
                match ec with
                | '=' :: vc => some (kc.asString, vc.asString)
                | _ => none
              | _ => none) = some f
            rw [splitOn_append_cons f.1.toList ('=' :: f.2.toList) hk hb]
            show some ((String.toList f.1).asString, (String.toList f.2).asString) = some f
            rw [asString_toList, asString_toList]
          )
        simpa using h
      have step1 : decodeParameterValue name .deepObject explode allowReserved .objShape
          (encodeParameterValue name .deepObject explode (.objVal fields)) =
          (match allSome ((fields.map (fun f => (deepChunk name f.1 f.2).asString)).map
              (fun s =>
                match stripPre (name.toList ++ ['[']) s.toList with
                | some t =>
                  match t.splitOn ']' with
                  | [kc, ec] =>
                    match ec with
                    | '=' :: vc => some (kc.asString, vc.asString)
                    | _ => none
                  | _ => none
                | none => none)) with
            | some ps => Except.ok (ParamValue.objVal ps)
            | none => Except.error
                (mkError "deepObject occurrences must be name[key]=value pairs")) := by
        cases explode <;> rfl
      rw [step1, hdeep]



/-- C8: Round-trip of the Parameter Codec — encoding any well-formed
parameter value (array or object) under any legal combination of style,
explode and allowReserved and decoding it yields the original value; and
decoding a delimiter-joined value under a delimited style with
explode=true and allowReserved=false yields a violation, never a silently
wrong decoded value. -/
theorem codec_round_trip :
    (∀ (name : String) (style : ParamStyle) (explode allowReserved : Bool)
        (v : ParamValue),
      legalCombo style v = true → v.wellFormed = true → codecPlain name = true →
      decodeParameterValue name style explode allowReserved v.shape
        (encodeParameterValue name style explode v) = .ok v) ∧
    (∀ (name : String) (style : ParamStyle) (s : String),
      (style = .spaceDelimited ∨ style = .pipeDelimited) →
      containsReservedDelim s = true →
      decodeParameterValue name style true false .arrShape [s] =
        .error (mkError
          "delimited value cannot be decoded under explode=true with allowReserved=false")) := by
  constructor
  · intro name style explode allowReserved v hLegal hWF hName
    cases v with
    | arrVal xs =>
        exact codec_round_trip_arr name style explode allowReserved xs hLegal hWF hName
    | objVal fields =>
        exact codec_round_trip_obj name style explode allowReserved fields hLegal hWF hName
  · intro name style s hstyle hdelim
    rcases hstyle with h | h <;> subst h <;> simp [decodeParameterValue, hdelim]

/-- Witness for C8: concrete round-trips of an exploded matrix object and
a comma-joined form array, and the rejected comma-joined value under
spaceDelimited explode=true allowReserved=false of the findByTags test. -/
theorem codec_round_trip_check :
    decodeParameterValue "color" .matrix true false .objShape
        (encodeParameterValue "color" .matrix true
          (.objVal [("R", "100"), ("G", "200")])) =
      .ok (.objVal [("R", "100"), ("G", "200")]) ∧
    decodeParameterValue "color" .form false true .arrShape
        (encodeParameterValue "color" .form false (.arrVal ["blue", "black"])) =
      .ok (.arrVal ["blue", "black"]) ∧
    decodeParameterValue "tags" .spaceDelimited true false .arrShape ["fuzzy,wuzzy"] =
      .error (mkError
        "delimited value cannot be decoded under explode=true with allowReserved=false") := by
  refine ⟨?_, ?_, ?_⟩
  · exact codec_round_trip.1 "color" .matrix true false
      (.objVal [("R", "100"), ("G", "200")]) (by decide) (by decide) (by decide)
  · exact codec_round_trip.1 "color" .form false true (.arrVal ["blue", "black"])
      (by decide) (by decide) (by decide)
  · exact codec_round_trip.2 "tags" .spaceDelimited "fuzzy,wuzzy" (Or.inl rfl) (by decide)

end LibOpenAPIValidator
